import Mathlib

/-!
Verification of the viper secure-file-wiping tool (src/main.rs) against its
natural-language specification.  The Rust source is shallowly embedded below:
byte strings become `List Nat`, the random source becomes an explicit stream of
chosen tokens / chosen indices, `u64` and `i32` arithmetic is made explicit
(with `i32` wrap-around modelled where the source multiplies), and fallible or
panicking code paths return `Option` / explicit failure constructors.
-/

namespace Viper

/-- Byte strings (`&[u8]` / `Vec<u8>` in the source) as lists of byte values. -/
abbrev Bytes := List Nat

/-- One token of the filler vocabulary, mirroring the string built in
`make_values` for a given family `a` (0 = plain, 1 = hash-prefixed), inner
run-length `b` and padding variant `c`.  Byte values: '8' = 56, '#' = 35,
'=' = 61, 'D' = 68, ' ' = 32, '~' = 126. -/
def token_of (a b c : Nat) : Bytes :=
  [56] ++ (if a ≠ 0 then [35] else []) ++ List.replicate b 61 ++ [68] ++
    (if c ≠ 0 then 32 :: List.replicate c 126 else [])

/-- Embedding of `make_values` (src/main.rs lines 145-168): the fixed filler
vocabulary.  Family `a = 0` uses run-lengths `1..8`, family `a = 1` uses
`1..7`, each with 4 padding variants, followed by the two literal tokens
"\x7b()\x7d" and "(\x7b\x7d)". -/
def make_values : List Bytes :=
  ((List.range 2).flatMap fun a =>
    (List.range' 1 (if a ≠ 0 then 7 else 8)).flatMap fun b =>
      (List.range 4).map fun c => token_of a b c)
  ++ [[123, 40, 41, 125], [40, 123, 125, 41]]

/-- Loop body of `make_block` (src/main.rs lines 170-185).  `vals i` is the
`i`-th token drawn by `params.values.choose(&mut params.rng)`.  The source
computes the final truncated slice length as `value_len - (pos - size) - 1` in
`u64`; when that subtraction underflows mathematically the program panics
(debug: overflow panic; release: wrapped huge slice bound, range panic), which
is modelled as `none`.  The `fuel` argument only bounds the iteration count;
since `pos` strictly increases each iteration, the initial fuel `size + 1`
supplied by `make_block` is never exhausted. -/
def make_block_go (vals : Nat → Bytes) (size : Nat) : Nat → Nat → Nat → Bytes → Option Bytes
  | 0, _, _, _ => none
  | fuel + 1, i, pos, res =>
    if pos < size then
      let value := vals i
      let vl := value.length
      let pos2 := pos + vl + 1
      if size < pos2 then
        if vl ≤ pos2 - size then none
        else some (res ++ value.take (vl - (pos2 - size) - 1))
      else make_block_go vals size fuel (i + 1) pos2 (res ++ value ++ [32])
    else some res

/-- Embedding of `make_block(size, params)` (src/main.rs lines 170-185). -/
def make_block (size : Nat) (vals : Nat → Bytes) : Option Bytes :=
  make_block_go vals size (size + 1) 0 0 []

/-- The precomputed zero block `vec![0; block_size]` built in `main`
(src/main.rs line 284). -/
def zero_block_of (block_size : Nat) : Bytes :=
  List.replicate block_size 0

/-- Block/block-size selection of `wipe` (src/main.rs lines 193-202): round 0
takes the configured block size and the precomputed zero block; any other
round takes `file_size.min(block_size)` and synthesizes a fresh block of that
requested size. -/
def select_block (round file_size block_size : Nat) (zero_block : Bytes)
    (vals : Nat → Bytes) : Nat × Option Bytes :=
  if round = 0 then (block_size, some zero_block)
  else (min file_size block_size, make_block (min file_size block_size) vals)

/-- Write loop of `wipe` (src/main.rs lines 203-211).  Returns the list of
byte strings passed to `file.write_all`, or `none` if the final
`&value[..block_size - (pos - file_size)]` slice exceeds the actual block
length (a panic in Rust).  Fuel `file_size + 1` is never exhausted when
`block_size ≥ 1`; for `block_size = 0` the source loop never terminates and
the model returns `none`. -/
def wipe_writes_go (file_size block_size : Nat) (block : Bytes) : Nat → Nat → Option (List Bytes)
  | 0, _ => none
  | fuel + 1, pos =>
    if pos < file_size then
      let pos2 := pos + block_size
      if file_size < pos2 then
        if block_size - (pos2 - file_size) ≤ block.length then
          (wipe_writes_go file_size block_size block fuel pos2).map
            (fun rest => block.take (block_size - (pos2 - file_size)) :: rest)
        else none
      else (wipe_writes_go file_size block_size block fuel pos2).map (fun rest => block :: rest)
    else some []

/-- The full write loop of `wipe`, starting at offset 0. -/
def wipe_writes (file_size block_size : Nat) (block : Bytes) : Option (List Bytes) :=
  wipe_writes_go file_size block_size block (file_size + 1) 0

/-- Observable events of the per-file protocol: data written by `write_all`,
`sync_all`, the two verbosity-gated progress lines, the rename to a vocabulary
name inside the same parent directory, and the final `remove_file`. -/
inductive Ev where
  | write : Bytes → Ev
  | sync : Ev
  | printWipe : Ev
  | printRound : Nat → Ev
  | rename : Bytes → Ev
  | remove : Ev
deriving DecidableEq

/-- Outcome of `wipe` / `wipe_loop`: `ok`/`err` carry the emitted events
(`err` is a recoverable `Result::Err`, here only the zero-size rejection);
`crash` is an uncatchable Rust panic. -/
inductive WipeOut where
  | ok : List Ev → WipeOut
  | err : List Ev → WipeOut
  | crash : WipeOut
deriving DecidableEq

/-- Embedding of `wipe(path, round, params)` (src/main.rs lines 187-214):
open (abstracted as succeeding), reject size-zero files, select the block,
run the write loop, then `sync_all`. -/
def wipe (file_size round block_size : Nat) (zero_block : Bytes)
    (vals : Nat → Bytes) : WipeOut :=
  if file_size = 0 then WipeOut.err []
  else
    match select_block round file_size block_size zero_block vals with
    | (_, none) => WipeOut.crash
    | (bsize, some block) =>
      match wipe_writes file_size bsize block with
      | none => WipeOut.crash
      | some ws => WipeOut.ok (ws.map Ev.write ++ [Ev.sync])

/-- `params.values.choose(&mut params.rng).unwrap()`: the rng is modelled as
the chosen index `i`; `choose` returns an element of the vocabulary. -/
def choose_value (i : Nat) : Bytes :=
  make_values.getD (i % make_values.length) []

/-- Round loop of `wipe_loop` (src/main.rs lines 220-228) over the remaining
round numbers, accumulating emitted events.  Round 0 is skipped when the zero
flag is off; a `[round: n]` line is printed at verbosity > 1 before each
executed round; any pass error aborts the loop; after all rounds the file is
renamed to the chosen vocabulary value and removed at its new path
(lines 229-231). -/
def wipe_loop_go (v : Nat) (zero : Bool) (file_size block_size : Nat) (zb : Bytes)
    (vals : Nat → Nat → Bytes) (name : Bytes) : List Nat → List Ev → WipeOut
  | [], acc => WipeOut.ok (acc ++ [Ev.rename name, Ev.remove])
  | n :: rest, acc =>
    if n == 0 && !zero then
      wipe_loop_go v zero file_size block_size zb vals name rest acc
    else
      match wipe file_size n block_size zb (vals n) with
      | WipeOut.ok evs =>
          wipe_loop_go v zero file_size block_size zb vals name rest
            (acc ++ ((if 1 < v then [Ev.printRound n] else []) ++ evs))
      | WipeOut.err evs =>
          WipeOut.err (acc ++ ((if 1 < v then [Ev.printRound n] else []) ++ evs))
      | WipeOut.crash => WipeOut.crash

/-- Embedding of `wipe_loop(path, params)` (src/main.rs lines 216-233).
`v` is the verbosity level, `num_rounds` the configured round count, `vals n`
the token stream consumed by round `n`, `name_idx` the rng draw for the
replacement file name.  A `[wipe] PATH` line is printed iff `v = 1`
(line 217). -/
def wipe_loop (v : Nat) (zero : Bool) (num_rounds file_size block_size : Nat)
    (vals : Nat → Nat → Bytes) (name_idx : Nat) : WipeOut :=
  wipe_loop_go v zero file_size block_size (zero_block_of block_size) vals
    (choose_value name_idx) (List.range (num_rounds + 1))
    (if v = 1 then [Ev.printWipe] else [])

/-- Helper: extract the event trace from a `WipeOut`. -/
def trace_of : WipeOut → List Ev
  | WipeOut.ok evs => evs
  | WipeOut.err evs => evs
  | WipeOut.crash => []

/-- Helper: did `wipe_loop` return `Ok(())`? -/
def is_ok : WipeOut → Bool
  | WipeOut.ok _ => true
  | _ => false

/-- The rounds the source loop `for n in 0..num_rounds + 1` actually executes:
round 0 exactly when the zero flag is set, then rounds `1..num_rounds` in
ascending order. -/
def executed_rounds (zero : Bool) (num_rounds : Nat) : List Nat :=
  (if zero then [0] else []) ++ List.range' 1 num_rounds

/-- The events a successful `wipe` call for round `n` emits (empty otherwise). -/
def ok_trace (file_size block_size : Nat) (zb : Bytes) (vals : Nat → Nat → Bytes)
    (n : Nat) : List Ev :=
  match wipe file_size n block_size zb (vals n) with
  | WipeOut.ok evs => evs
  | _ => []

/-- Number of `[wipe] PATH` progress lines in a trace. -/
def count_print_wipe : List Ev → Nat
  | [] => 0
  | Ev.printWipe :: rest => count_print_wipe rest + 1
  | _ :: rest => count_print_wipe rest

/-- Number of `[round: N] PATH` progress lines in a trace. -/
def count_print_round : List Ev → Nat
  | [] => 0
  | Ev.printRound _ :: rest => count_print_round rest + 1
  | _ :: rest => count_print_round rest

/-- An event that is only a progress line (no data written, no rename/remove). -/
def is_print : Ev → Bool
  | Ev.printWipe => true
  | Ev.printRound _ => true
  | _ => false

/-- An event that is not a rename and not a removal. -/
def no_rr : Ev → Bool
  | Ev.rename _ => false
  | Ev.remove => false
  | _ => true

/-!  Tree-walk model.  A filesystem node is a regular file (identified by a
label, carrying whether its `wipe_loop` succeeds — wipe internals are modelled
separately above), a node whose `canonicalize`/`metadata` fails, or a
directory with its entries. -/

/-- A node of the file tree handed to `walk`. -/
inductive Node where
  | file : Nat → Bool → Node
  | errNode : Nat → Node
  | dir : Nat → List Node → Node

/-- Walk-level observable events: a file wipe being attempted, a file fully
wiped (renamed and unlinked), a directory removed. -/
inductive WEv where
  | attempt : Nat → WEv
  | wiped : Nat → WEv
  | removedDir : Nat → WEv
deriving DecidableEq

/-- Result of one `walk` call: emitted events, errors counted *inside* the
call (by the recursion boundary `walk1` on child entries), whether the call
itself returned `Ok`, and whether the node was removed from its parent. -/
structure WalkOut where
  trace : List WEv
  errs : Nat
  ok : Bool
  removed : Bool
deriving DecidableEq

mutual

/-- Embedding of `walk(path, depth, params)` (src/main.rs lines 235-257).
A directory at depth > 0 without the recursive flag returns `Ok` untouched;
otherwise its entries are processed through `walk1` at depth + 1 and the
directory itself is removed, which succeeds exactly when every entry was
removed (the directory is then empty); removal failure is this call's error.
A non-directory is wiped via `wipe_loop` (success abstracted in the node). -/
def walk (rflag : Bool) (n : Node) (depth : Nat) : WalkOut :=
  match n with
  | Node.errNode _ => ⟨[], 0, false, false⟩
  | Node.file j okv =>
    if okv then ⟨[WEv.attempt j, WEv.wiped j], 0, true, true⟩
    else ⟨[WEv.attempt j], 0, false, false⟩
  | Node.dir j es =>
    if 0 < depth ∧ rflag = false then ⟨[], 0, true, false⟩
    else
      let c := walk_list rflag es (depth + 1)
      if c.2.2 then ⟨c.1 ++ [WEv.removedDir j], c.2.1, true, true⟩
      else ⟨c.1, c.2.1, false, false⟩

/-- The `for entry in fs::read_dir(path)` loop body: each entry goes through
`walk1` (src/main.rs lines 259-264), which counts and logs its error instead
of propagating, so later siblings are always processed.  Returns accumulated
trace, accumulated error count, and whether all entries were removed. -/
def walk_list (rflag : Bool) (es : List Node) (depth : Nat) : List WEv × Nat × Bool :=
  match es with
  | [] => ([], 0, true)
  | e :: rest =>
    let r := walk rflag e depth
    let rr := walk_list rflag rest depth
    (r.trace ++ rr.1, (r.errs + (if r.ok then 0 else 1)) + rr.2.1, r.removed && rr.2.2)

end

/-- Embedding of `walk1` (src/main.rs lines 259-264): run `walk`, and on error
increment the error counter by exactly one (the error is printed, never
propagated). -/
def walk1 (rflag : Bool) (n : Node) (depth : Nat) : List WEv × Nat :=
  let r := walk rflag n depth
  (r.trace, r.errs + (if r.ok then 0 else 1))

/-- The `for file in params.opts.files` loop of `main` (src/main.rs
lines 286-288): every root is processed through `walk1` at depth 0. -/
def run_roots (rflag : Bool) : List Node → List WEv × Nat
  | [] => ([], 0)
  | n :: rest =>
    let r := walk1 rflag n 0
    let rr := run_roots rflag rest
    (r.1 ++ rr.1, r.2 + rr.2)

/-- Final error aggregation of `main` (src/main.rs lines 289-292): a nonzero
counter yields `Err("<N> errors were during wiping")`, which makes the process
exit nonzero; otherwise `Ok(())` and exit code 0. -/
def main_result (errs : Nat) : Except String Unit :=
  if errs ≠ 0 then Except.error (toString errs ++ " errors were during wiping")
  else Except.ok ()

/-- The whole run over the root set. -/
def main_run (rflag : Bool) (roots : List Node) : List WEv × Nat × Except String Unit :=
  let r := run_roots rflag roots
  (r.1, r.2, main_result r.2)

/-!  Option resolution (`get_opts`, src/main.rs lines 131-142).  `num_rounds`
and `block_size` are `i32`; values below 1 are replaced by the defaults
(1 round, 8 MB); the megabyte value is then converted to bytes by
`opts.block_size *= 1 << 20`, an `i32` multiplication whose release-mode
wrap-around is modelled by `wrap32`. -/

/-- Two's-complement wrap-around of a mathematical integer into `i32`. -/
def wrap32 (x : Int) : Int :=
  (x + 2147483648) % 4294967296 - 2147483648

/-- `if opts.num_rounds < 1 { opts.num_rounds = default::NUM_ROUNDS }`. -/
def resolve_num_rounds (n : Int) : Int :=
  if n < 1 then 1 else n

/-- `if opts.block_size < 1 { opts.block_size = default::BLOCK_SIZE }` followed
by `opts.block_size *= 1 << 20` in `i32` arithmetic. -/
def resolve_block_size (b : Int) : Int :=
  wrap32 ((if b < 1 then 8 else b) * 1048576)

/-!  Theorems. -/

/-- Claim C1 (refuted, code bug): the spec requires `make_block(s, …)` to
return exactly `s` bytes without underflow or panic for the fixed vocabulary.
The source truncates the final token with slice length
`value_len - (pos - size) - 1`, which is two bytes short of the gap to `size`:
with the vocabulary token "8=D" (3 bytes, a member of `make_values`) drawn
repeatedly, size 10 yields an 8-byte buffer, and size 5 makes the `u64`
subtraction underflow, a panic (`none`). -/
theorem c1_make_block_truncation_bug :
    make_block 5 (fun _ => [56, 61, 68]) = none ∧
    (make_block 10 (fun _ => [56, 61, 68])).map List.length = some 8 ∧
    [56, 61, 68] ∈ make_values ∧ make_values ≠ [] := by
  decide

/-- Claim C8 counterexample: for the user-supplied megabyte value 2048 the
`i32` multiplication `block_size *= 1 << 20` overflows (wrapping to `-2^31`
in release builds, an arithmetic panic in debug builds), so the resolved
block size is not ≥ 1. -/
theorem c8_block_size_overflow_cex :
    resolve_block_size 2048 = -2147483648 ∧ ¬(1 ≤ resolve_block_size 2048) := by
  decide

/-- Claim C8 (amended): after defaulting, `num_rounds ≥ 1` holds for every
user value, and the block size in bytes equals the (defaulted) megabyte value
times 2^20 and is ≥ 1 — provided that megabyte value is at most 2047, the
largest for which the `i32` multiplication does not overflow. -/
theorem c8_defaulting_invariant (n b : Int) (hb : b ≤ 2047) :
    1 ≤ resolve_num_rounds n ∧
    resolve_block_size b = (if b < 1 then 8 else b) * 1048576 ∧
    1 ≤ resolve_block_size b := by
  refine ⟨?_, ?_, ?_⟩
  · unfold resolve_num_rounds
    split <;> omega
  · unfold resolve_block_size wrap32
    split <;> omega
  · unfold resolve_block_size wrap32
    split <;> omega

/-- Witness for C8: user values `n = -5`, `b = 8` resolve to 1 round and
8 MiB = 8388608 bytes. -/
theorem c8_defaulting_invariant_witness :
    1 ≤ resolve_num_rounds (-5) ∧
    resolve_block_size 8 = (if (8 : Int) < 1 then 8 else 8) * 1048576 ∧
    1 ≤ resolve_block_size 8 :=
  c8_defaulting_invariant (-5) 8 (by decide)

/-- Invariant of the `wipe` write loop: with a block whose length matches the
nominal block size, the loop succeeds, writes `file_size - pos` further bytes,
and every written chunk is a prefix of the block. -/
lemma wipe_writes_go_spec (block_size : Nat) (hb : 0 < block_size) (block : Bytes)
    (hlen : block.length = block_size) (file_size : Nat) :
    ∀ fuel pos, file_size - pos < fuel →
      ∃ ws, wipe_writes_go file_size block_size block fuel pos = some ws ∧
        (ws.map List.length).sum = file_size - pos ∧
        ∀ w ∈ ws, ∃ j, w = block.take j := by
  intro fuel
  induction fuel with
  | zero => intro pos h; omega
  | succ fuel ih =>
    intro pos h
    by_cases hp : pos < file_size
    · by_cases hover : file_size < pos + block_size
      · have hle : block_size - (pos + block_size - file_size) ≤ block.length := by omega
        obtain ⟨ws, hws, hsum, hsh⟩ := ih (pos + block_size) (by omega)
        refine ⟨block.take (block_size - (pos + block_size - file_size)) :: ws, ?_, ?_, ?_⟩
        · rw [wipe_writes_go]
          simp only [if_pos hp, if_pos hover, if_pos hle, hws]
          rfl
        · simp only [List.map_cons, List.sum_cons, List.length_take, hlen]
          omega
        · intro w hw
          rw [List.mem_cons] at hw
          rcases hw with h1 | hw
          · exact ⟨block_size - (pos + block_size - file_size), h1⟩
          · exact hsh _ hw
      · obtain ⟨ws, hws, hsum, hsh⟩ := ih (pos + block_size) (by omega)
        refine ⟨block :: ws, ?_, ?_, ?_⟩
        · rw [wipe_writes_go]
          simp only [if_pos hp, if_neg hover, hws]
          rfl
        · simp only [List.map_cons, List.sum_cons, hlen]
          omega
        · intro w hw
          rw [List.mem_cons] at hw
          rcases hw with h1 | hw
          · exact ⟨block.length, by rw [h1, List.take_length]⟩
          · exact hsh _ hw
    · refine ⟨[], ?_, ?_, by intro w hw; cases hw⟩
      · rw [wipe_writes_go]
        simp only [if_neg hp]
      · simp only [List.map_nil, List.sum_nil]
        omega

/-- Claim C2: for every file size `f > 0` and block size `b > 0`, one pass of
the `wipe` write loop (src/main.rs lines 203-211) writes exactly `f` bytes,
starting at offset 0 and advancing by `b` each iteration — the final write is
truncated to `b - (pos - f)` bytes — whether `b` divides `f`, `b > f`, or
`b < f`.  Stated for any block of the nominal length `b` (first conjunct), and
instantiated to a complete round-0 pass of `wipe` with the precomputed zero
block (second conjunct). -/
theorem c2_pass_writes_exact_total (file_size block_size : Nat) (block : Bytes)
    (tvals : Nat → Bytes) (hf : 0 < file_size) (hb : 0 < block_size)
    (hlen : block.length = block_size) :
    (∃ ws : List Bytes, wipe_writes file_size block_size block = some ws ∧
      (ws.map List.length).sum = file_size) ∧
    (∃ ws : List Bytes, wipe file_size 0 block_size (zero_block_of block_size) tvals
        = WipeOut.ok (ws.map Ev.write ++ [Ev.sync]) ∧
      (ws.map List.length).sum = file_size) := by
  constructor
  · obtain ⟨ws, hws, hsum, -⟩ :=
      wipe_writes_go_spec block_size hb block hlen file_size (file_size + 1) 0 (by omega)
    exact ⟨ws, hws, by simpa using hsum⟩
  · obtain ⟨ws, hws, hsum, -⟩ :=
      wipe_writes_go_spec block_size hb (zero_block_of block_size)
        (by simp [zero_block_of]) file_size (file_size + 1) 0 (by omega)
    refine ⟨ws, ?_, by simpa using hsum⟩
    have hw2 : wipe_writes file_size block_size (zero_block_of block_size) = some ws := hws
    have hnz : ¬(file_size = 0) := by omega
    simp [wipe, select_block, hnz, hw2]

/-- Witness for C2: file size 10, block size 4, block `[1,2,3,4]`: the loop
writes chunks of 4, 4 and 2 bytes, 10 in total. -/
theorem c2_pass_writes_exact_total_witness :
    (∃ ws : List Bytes, wipe_writes 10 4 [1, 2, 3, 4] = some ws ∧
      (ws.map List.length).sum = 10) ∧
    (∃ ws : List Bytes, wipe 10 0 4 (zero_block_of 4) (fun _ => [])
        = WipeOut.ok (ws.map Ev.write ++ [Ev.sync]) ∧
      (ws.map List.length).sum = 10) :=
  c2_pass_writes_exact_total 10 4 [1, 2, 3, 4] (fun _ => [])
    (by decide) (by decide) (by decide)

/-- Claim C6 counterexample: the claim says a round ≥ 1 synthesizes a block
of size *exactly* `min(configuredBlockSize, fileSize)`.  With file size 10 and
the default configured block size 8 MiB = 8388608 bytes, round 1 requests
`min 10 8388608 = 10` bytes, but with the vocabulary token "8=D" drawn
repeatedly `make_block` delivers only 8 bytes (the C1 truncation bug). -/
theorem c6_round_block_selection_cex :
    (select_block 1 10 8388608 (zero_block_of 8388608) (fun _ => [56, 61, 68])).1 = 10 ∧
    (select_block 1 10 8388608 (zero_block_of 8388608) (fun _ => [56, 61, 68])).2.map
        List.length = some 8 ∧
    ¬(8 = 10) ∧ [56, 61, 68] ∈ make_values := by
  decide

/-- Claim C6 (amended): in `wipe`, round 0 unconditionally selects the
configured block size and the precomputed all-zero buffer of exactly that
length — even when it exceeds the file size — and then writes exactly
`file_size` zero bytes; every round ≥ 1 selects block size
`min(fileSize, configuredBlockSize)` and synthesizes a fresh block by
*requesting* that many bytes from `make_block` (which may deliver up to two
bytes fewer, or panic — see C1). -/
theorem c6_round_block_selection (file_size block_size r : Nat) (tvals : Nat → Bytes)
    (hr : 1 ≤ r) (hf : 0 < file_size) (hb : 0 < block_size) :
    select_block 0 file_size block_size (zero_block_of block_size) tvals
      = (block_size, some (zero_block_of block_size)) ∧
    (zero_block_of block_size).length = block_size ∧
    select_block r file_size block_size (zero_block_of block_size) tvals
      = (min file_size block_size, make_block (min file_size block_size) tvals) ∧
    (∃ ws : List Bytes, wipe file_size 0 block_size (zero_block_of block_size) tvals
        = WipeOut.ok (ws.map Ev.write ++ [Ev.sync]) ∧
      (ws.map List.length).sum = file_size ∧
      ∀ w ∈ ws, ∀ x ∈ w, x = 0) := by
  refine ⟨by simp [select_block], by simp [zero_block_of], ?_, ?_⟩
  · have : ¬(r = 0) := by omega
    simp [select_block, this]
  · obtain ⟨ws, hws, hsum, hsh⟩ :=
      wipe_writes_go_spec block_size hb (zero_block_of block_size)
        (by simp [zero_block_of]) file_size (file_size + 1) 0 (by omega)
    have hw2 : wipe_writes file_size block_size (zero_block_of block_size) = some ws := hws
    have hnz : ¬(file_size = 0) := by omega
    refine ⟨ws, by simp [wipe, select_block, hnz, hw2], by simpa using hsum, ?_⟩
    intro w hw x hx
    obtain ⟨j, rfl⟩ := hsh w hw
    have hx2 : x ∈ zero_block_of block_size := List.mem_of_mem_take hx
    exact List.eq_of_mem_replicate hx2

/-- Witness for C6: file size 10, configured block size 4, round 1. -/
theorem c6_round_block_selection_witness :
    select_block 0 10 4 (zero_block_of 4) (fun _ => [56, 61, 68])
      = (4, some (zero_block_of 4)) ∧
    (zero_block_of 4).length = 4 ∧
    select_block 1 10 4 (zero_block_of 4) (fun _ => [56, 61, 68])
      = (min 10 4, make_block (min 10 4) (fun _ => [56, 61, 68])) ∧
    (∃ ws : List Bytes, wipe 10 0 4 (zero_block_of 4) (fun _ => [56, 61, 68])
        = WipeOut.ok (ws.map Ev.write ++ [Ev.sync]) ∧
      (ws.map List.length).sum = 10 ∧
      ∀ w ∈ ws, ∀ x ∈ w, x = 0) :=
  c6_round_block_selection 10 4 1 (fun _ => [56, 61, 68])
    (by decide) (by decide) (by decide)

/-- A successful `wipe` call emits its writes followed by exactly one sync. -/
lemma wipe_ok_shape {file_size n block_size : Nat} {zb : Bytes} {tvals : Nat → Bytes}
    {evs : List Ev} (h : wipe file_size n block_size zb tvals = WipeOut.ok evs) :
    ∃ ws : List Bytes, evs = ws.map Ev.write ++ [Ev.sync] := by
  unfold wipe at h
  split at h
  · cases h
  · split at h
    · cases h
    · split at h
      · cases h
      · rcases h with ⟨⟩
        exact ⟨_, rfl⟩

/-- A `wipe` call returns `Err` only for a zero-size file, emitting nothing. -/
lemma wipe_err_shape {file_size n block_size : Nat} {zb : Bytes} {tvals : Nat → Bytes}
    {evs : List Ev} (h : wipe file_size n block_size zb tvals = WipeOut.err evs) :
    evs = [] ∧ file_size = 0 := by
  unfold wipe at h
  split at h
  next hz => rcases h with ⟨⟩; exact ⟨rfl, hz⟩
  · split at h
    · cases h
    · split at h
      · cases h
      · cases h

/-- Event chunks produced by a successful pass contain no rename/remove. -/
lemma no_rr_of_pass (ws : List Bytes) :
    ((ws.map Ev.write ++ [Ev.sync]).all no_rr) = true := by
  induction ws with
  | nil => rfl
  | cons w rest ih => simp [no_rr, ih]

/-- Structure of a successful run of the round loop: every non-skipped round's
`wipe` succeeded, and the events are the accumulator, then — for each executed
round in list order — the optional `[round: n]` line followed by that round's
pass events, then the rename and the removal. -/
lemma wipe_loop_go_ok_spec (v : Nat) (zero : Bool) (file_size block_size : Nat)
    (zb : Bytes) (vals : Nat → Nat → Bytes) (name : Bytes) :
    ∀ (rounds : List Nat) (acc evs : List Ev),
      wipe_loop_go v zero file_size block_size zb vals name rounds acc = WipeOut.ok evs →
      (∀ n ∈ rounds.filter (fun n => !(n == 0 && !zero)),
        ∃ ws : List Bytes, wipe file_size n block_size zb (vals n)
            = WipeOut.ok (ws.map Ev.write ++ [Ev.sync])) ∧
      evs = acc ++ ((rounds.filter (fun n => !(n == 0 && !zero))).flatMap
          (fun n => (if 1 < v then [Ev.printRound n] else [])
            ++ ok_trace file_size block_size zb vals n))
        ++ [Ev.rename name, Ev.remove] := by
  intro rounds
  induction rounds with
  | nil =>
    intro acc evs h
    rw [wipe_loop_go] at h
    rcases h with ⟨⟩
    simp
  | cons n rest ih =>
    intro acc evs h
    rw [wipe_loop_go] at h
    by_cases hskip : (n == 0 && !zero) = true
    · rw [if_pos hskip] at h
      obtain ⟨hall, hevs⟩ := ih acc evs h
      rw [List.filter_cons]
      simp only [hskip, Bool.not_true, Bool.false_eq_true, if_false]
      exact ⟨hall, hevs⟩
    · rw [if_neg hskip] at h
      rcases hw : wipe file_size n block_size zb (vals n) with evs0 | evs0 | _ <;>
        rw [hw] at h
      · obtain ⟨hall, hevs⟩ :=
          ih (acc ++ ((if 1 < v then [Ev.printRound n] else []) ++ evs0)) evs h
        rw [List.filter_cons]
        have hkeep : (n == 0 && !zero) = false := Bool.eq_false_iff.mpr hskip
        simp only [hkeep, Bool.not_false, if_true]
        constructor
        · intro m hm
          rw [List.mem_cons] at hm
          rcases hm with rfl | hm
          · obtain ⟨ws, hws⟩ := wipe_ok_shape hw
            exact ⟨ws, by rw [hw, hws]⟩
          · exact hall m hm
        · rw [hevs]
          have hot : ok_trace file_size block_size zb vals n = evs0 := by
            unfold ok_trace
            rw [hw]
          rw [List.flatMap_cons, hot]
          simp [List.append_assoc]
      · cases h
      · cases h

/-- If the round loop fails with a recoverable error, the emitted events
extend the accumulator and contain no rename and no removal. -/
lemma wipe_loop_go_err_spec (v : Nat) (zero : Bool) (file_size block_size : Nat)
    (zb : Bytes) (vals : Nat → Nat → Bytes) (name : Bytes) :
    ∀ (rounds : List Nat) (acc evs : List Ev),
      wipe_loop_go v zero file_size block_size zb vals name rounds acc = WipeOut.err evs →
      ∃ suf : List Ev, evs = acc ++ suf ∧ suf.all no_rr = true := by
  intro rounds
  induction rounds with
  | nil =>
    intro acc evs h
    rw [wipe_loop_go] at h
    cases h
  | cons n rest ih =>
    intro acc evs h
    rw [wipe_loop_go] at h
    by_cases hskip : (n == 0 && !zero) = true
    · rw [if_pos hskip] at h
      exact ih acc evs h
    · rw [if_neg hskip] at h
      rcases hw : wipe file_size n block_size zb (vals n) with evs0 | evs0 | _ <;>
        rw [hw] at h
      · obtain ⟨suf, hsuf, hall⟩ :=
          ih (acc ++ ((if 1 < v then [Ev.printRound n] else []) ++ evs0)) evs h
        refine ⟨(if 1 < v then [Ev.printRound n] else []) ++ evs0 ++ suf, ?_, ?_⟩
        · rw [hsuf]; simp [List.append_assoc]
        · obtain ⟨ws, rfl⟩ := wipe_ok_shape hw
          simp only [List.all_append, hall, no_rr_of_pass, Bool.and_true]
          split <;> simp [no_rr]
      · rcases h with ⟨⟩
        obtain ⟨rfl, -⟩ := wipe_err_shape hw
        refine ⟨(if 1 < v then [Ev.printRound n] else []) ++ [], rfl, ?_⟩
        split <;> simp [no_rr]
      · cases h

/-- The rounds actually executed by `for n in 0..num_rounds + 1` with the
skip of round 0 when the zero flag is off. -/
lemma range_filter_executed (zero : Bool) (num_rounds : Nat) :
    (List.range (num_rounds + 1)).filter (fun n => !(n == 0 && !zero))
      = executed_rounds zero num_rounds := by
  rw [List.range_eq_range', List.range'_succ, List.filter_cons]
  have h1 : (List.range' 1 num_rounds).filter (fun n => !(n == 0 && !zero))
      = List.range' 1 num_rounds := by
    apply List.filter_eq_self.mpr
    intro a ha
    have h2 : 1 ≤ a := (List.mem_range'_1.mp ha).1
    have h3 : (a == 0) = false := by
      simp only [beq_eq_false_iff_ne, ne_eq]
      omega
    simp [h3]
  rw [h1]
  cases zero <;> simp [executed_rounds]

/-- The replacement name drawn by `choose` is an element of the vocabulary. -/
lemma choose_value_mem (i : Nat) : choose_value i ∈ make_values := by
  unfold choose_value
  have hlen : i % make_values.length < make_values.length := by
    apply Nat.mod_lt
    decide
  rw [List.getD_eq_getElem?_getD, List.getElem?_eq_getElem hlen]
  exact List.getElem_mem hlen

/-- Claim C3: for a file wiped by `wipe_loop`, execution is in strict order —
round 0 is executed first iff the zero flag is set, then rounds
`1..num_rounds` ascending, each pass's writes followed by one sync; only when
every pass succeeded is the file renamed (within its parent directory, via
`with_file_name`) to a vocabulary value — the rng draw is modelled by the
index `name_idx`, uniformity being the contract of `SliceRandom::choose` —
and then removed at its new path, as the final two events.  If a pass fails,
no rename and no removal happens. -/
theorem c3_wipe_protocol_order (v : Nat) (zero : Bool)
    (num_rounds file_size block_size : Nat) (vals : Nat → Nat → Bytes) (name_idx : Nat) :
    (∀ evs, wipe_loop v zero num_rounds file_size block_size vals name_idx
        = WipeOut.ok evs →
      (∀ n ∈ executed_rounds zero num_rounds,
        ∃ ws : List Bytes, wipe file_size n block_size (zero_block_of block_size) (vals n)
            = WipeOut.ok (ws.map Ev.write ++ [Ev.sync])) ∧
      evs = (if v = 1 then [Ev.printWipe] else [])
        ++ ((executed_rounds zero num_rounds).flatMap
            (fun n => (if 1 < v then [Ev.printRound n] else [])
              ++ ok_trace file_size block_size (zero_block_of block_size) vals n))
        ++ [Ev.rename (choose_value name_idx), Ev.remove] ∧
      choose_value name_idx ∈ make_values) ∧
    (∀ evs, wipe_loop v zero num_rounds file_size block_size vals name_idx
        = WipeOut.err evs →
      evs.all no_rr = true) := by
  constructor
  · intro evs h
    unfold wipe_loop at h
    obtain ⟨hall, hevs⟩ := wipe_loop_go_ok_spec v zero file_size block_size
      (zero_block_of block_size) vals (choose_value name_idx) _ _ _ h
    rw [range_filter_executed] at hall hevs
    exact ⟨hall, by rw [hevs, List.append_assoc], choose_value_mem name_idx⟩
  · intro evs h
    unfold wipe_loop at h
    obtain ⟨suf, rfl, hsuf⟩ := wipe_loop_go_err_spec v zero file_size block_size
      (zero_block_of block_size) vals (choose_value name_idx) _ _ _ h
    rw [List.all_append, hsuf, Bool.and_true]
    split <;> simp [no_rr]

/-- Witness for C3: verbosity 2, zero pass on, 1 random round, file size 4,
block size 4, token stream constantly "8=D", name index 0.  The run succeeds
and its trace is exactly the specified shape. -/
theorem c3_wipe_protocol_order_witness :
    (∀ n ∈ executed_rounds true 1,
      ∃ ws : List Bytes, wipe 4 n 4 (zero_block_of 4) ((fun _ _ => [56, 61, 68]) n)
          = WipeOut.ok (ws.map Ev.write ++ [Ev.sync])) ∧
    ([Ev.printRound 0, Ev.write [0, 0, 0, 0], Ev.sync,
      Ev.printRound 1, Ev.write [56, 61, 68, 32], Ev.sync,
      Ev.rename [56, 61, 68], Ev.remove]
      = (if (2 : Nat) = 1 then [Ev.printWipe] else [])
        ++ ((executed_rounds true 1).flatMap
            (fun n => (if 1 < (2 : Nat) then [Ev.printRound n] else [])
              ++ ok_trace 4 4 (zero_block_of 4) (fun _ _ => [56, 61, 68]) n))
        ++ [Ev.rename (choose_value 0), Ev.remove]) ∧
    choose_value 0 ∈ make_values :=
  (c3_wipe_protocol_order 2 true 1 4 4 (fun _ _ => [56, 61, 68]) 0).1
    [Ev.printRound 0, Ev.write [0, 0, 0, 0], Ev.sync,
     Ev.printRound 1, Ev.write [56, 61, 68, 32], Ev.sync,
     Ev.rename [56, 61, 68], Ev.remove] rfl

lemma count_print_wipe_append (a b : List Ev) :
    count_print_wipe (a ++ b) = count_print_wipe a + count_print_wipe b := by
  induction a with
  | nil => simp [count_print_wipe]
  | cons e rest ih => cases e <;> simp [count_print_wipe, ih] <;> try omega

lemma count_print_round_append (a b : List Ev) :
    count_print_round (a ++ b) = count_print_round a + count_print_round b := by
  induction a with
  | nil => simp [count_print_round]
  | cons e rest ih => cases e <;> simp [count_print_round, ih] <;> try omega

lemma count_print_wipe_pass (ws : List Bytes) :
    count_print_wipe (ws.map Ev.write ++ [Ev.sync]) = 0 := by
  induction ws with
  | nil => rfl
  | cons w rest ih => simpa [count_print_wipe] using ih

lemma count_print_round_pass (ws : List Bytes) :
    count_print_round (ws.map Ev.write ++ [Ev.sync]) = 0 := by
  induction ws with
  | nil => rfl
  | cons w rest ih => simpa [count_print_round] using ih

/-- Claim C9 counterexample: the claim implies that at verbosity level 2 a
file wiped with the zero pass plus 2 random rounds produces 3 `[round: N]`
lines *plus one* `[wipe]` line.  The source prints the `[wipe]` line only when
`verbose == 1` exactly (src/main.rs line 217), so at level 2 the successful
run below emits 3 round lines and zero `[wipe]` lines. -/
theorem c9_level2_lines_cex :
    is_ok (wipe_loop 2 true 2 4 4 (fun _ _ => [56, 61, 68]) 0) = true ∧
    count_print_wipe (trace_of (wipe_loop 2 true 2 4 4 (fun _ _ => [56, 61, 68]) 0)) = 0 ∧
    ¬(count_print_wipe (trace_of (wipe_loop 2 true 2 4 4 (fun _ _ => [56, 61, 68]) 0)) = 1) ∧
    count_print_round (trace_of (wipe_loop 2 true 2 4 4 (fun _ _ => [56, 61, 68]) 0)) = 3 := by
  decide

/-- Claim C9 (amended): on a successful `wipe_loop` run, exactly one
`[wipe] PATH` line is printed iff the verbosity level is exactly 1 (none at
level ≥ 2, where the round lines replace it rather than add to it), and one
`[round: N] PATH` line is printed per executed pass iff the level is ≥ 2 —
so a file wiped at level 2 with the zero pass plus `num_rounds` random rounds
produces `num_rounds + 1` round lines and no `[wipe]` line. -/
theorem c9_verbose_line_counts (v : Nat) (zero : Bool)
    (num_rounds file_size block_size : Nat) (vals : Nat → Nat → Bytes) (name_idx : Nat)
    (evs : List Ev)
    (h : wipe_loop v zero num_rounds file_size block_size vals name_idx = WipeOut.ok evs) :
    count_print_wipe evs = (if v = 1 then 1 else 0) ∧
    count_print_round evs = (if 1 < v then (if zero then num_rounds + 1 else num_rounds) else 0) := by
  unfold wipe_loop at h
  obtain ⟨hall, hevs⟩ := wipe_loop_go_ok_spec v zero file_size block_size
    (zero_block_of block_size) vals (choose_value name_idx) _ _ _ h
  rw [range_filter_executed] at hall hevs
  subst hevs
  have hw0 : ∀ n ∈ executed_rounds zero num_rounds,
      count_print_wipe ((if 1 < v then [Ev.printRound n] else [])
        ++ ok_trace file_size block_size (zero_block_of block_size) vals n) = 0 := by
    intro n hn
    obtain ⟨ws, hws⟩ := hall n hn
    have hot : ok_trace file_size block_size (zero_block_of block_size) vals n
        = ws.map Ev.write ++ [Ev.sync] := by
      unfold ok_trace
      rw [hws]
    rw [count_print_wipe_append, hot, count_print_wipe_pass]
    split <;> simp [count_print_wipe]
  have hr1 : ∀ n ∈ executed_rounds zero num_rounds,
      count_print_round ((if 1 < v then [Ev.printRound n] else [])
        ++ ok_trace file_size block_size (zero_block_of block_size) vals n)
        = (if 1 < v then 1 else 0) := by
    intro n hn
    obtain ⟨ws, hws⟩ := hall n hn
    have hot : ok_trace file_size block_size (zero_block_of block_size) vals n
        = ws.map Ev.write ++ [Ev.sync] := by
      unfold ok_trace
      rw [hws]
    rw [count_print_round_append, hot, count_print_round_pass]
    split <;> simp [count_print_round]
  have hbind0 : ∀ l : List Nat, (∀ n ∈ l, n ∈ executed_rounds zero num_rounds) →
      count_print_wipe (l.flatMap
        (fun n => (if 1 < v then [Ev.printRound n] else [])
          ++ ok_trace file_size block_size (zero_block_of block_size) vals n)) = 0 ∧
      count_print_round (l.flatMap
        (fun n => (if 1 < v then [Ev.printRound n] else [])
          ++ ok_trace file_size block_size (zero_block_of block_size) vals n))
        = l.length * (if 1 < v then 1 else 0) := by
    intro l
    induction l with
    | nil => intro _; simp [count_print_wipe, count_print_round]
    | cons m rest ih =>
      intro hsub
      have hm := hsub m (List.mem_cons_self m rest)
      obtain ⟨ihw, ihr⟩ := ih (fun n hn => hsub n (List.mem_cons_of_mem m hn))
      rw [List.flatMap_cons]
      constructor
      · rw [count_print_wipe_append, ihw, hw0 m hm]
      · rw [count_print_round_append, ihr, hr1 m hm, List.length_cons]
        ring
  obtain ⟨hbw, hbr⟩ := hbind0 (executed_rounds zero num_rounds) (fun _ hn => hn)
  have hlen : (executed_rounds zero num_rounds).length
      = (if zero then num_rounds + 1 else num_rounds) := by
    cases zero <;> simp [executed_rounds]
  constructor
  · rw [count_print_wipe_append, count_print_wipe_append, hbw]
    cases Nat.decEq v 1 with
    | isTrue hv => simp [hv, count_print_wipe]
    | isFalse hv => simp [hv, count_print_wipe]
  · rw [count_print_round_append, count_print_round_append, hbr, hlen]
    by_cases hv : 1 < v
    · have hv1 : ¬(v = 1) := by omega
      simp [hv, hv1, count_print_round]
    · simp [hv, count_print_round]
      split <;> simp [count_print_round]

/-- Witness for C9: verbosity 1, no zero pass, 1 round, file size 4, block
size 4: exactly one wipe line and no round line. -/
theorem c9_verbose_line_counts_witness :
    count_print_wipe [Ev.printWipe, Ev.write [56, 61, 68, 32], Ev.sync,
        Ev.rename [56, 61, 68], Ev.remove] = (if (1 : Nat) = 1 then 1 else 0) ∧
    count_print_round [Ev.printWipe, Ev.write [56, 61, 68, 32], Ev.sync,
        Ev.rename [56, 61, 68], Ev.remove]
      = (if 1 < (1 : Nat) then (if (false : Bool) then 1 + 1 else 1) else 0) :=
  c9_verbose_line_counts 1 false 1 4 4 (fun _ _ => [56, 61, 68]) 0
    [Ev.printWipe, Ev.write [56, 61, 68, 32], Ev.sync,
     Ev.rename [56, 61, 68], Ev.remove] rfl

/-- If the first executed round's `wipe` fails with an empty error trace, the
whole round loop fails, emitting only the accumulator and progress lines. -/
lemma wipe_loop_go_first_err (v : Nat) (zero : Bool) (bs2 : Nat) (zb : Bytes)
    (vals2 : Nat → Nat → Bytes) (name : Bytes) (n : Nat) (rest : List Nat) (acc : List Ev)
    (hnoskip : (n == 0 && !zero) = false)
    (herr : wipe 0 n bs2 zb (vals2 n) = WipeOut.err []) :
    wipe_loop_go v zero 0 bs2 zb vals2 name (n :: rest) acc
      = WipeOut.err (acc ++ ((if 1 < v then [Ev.printRound n] else []) ++ [])) := by
  rw [wipe_loop_go]
  simp only [hnoskip, Bool.false_eq_true, if_false, herr]

lemma is_print_prefix (v n : Nat) :
    (((if v = 1 then [Ev.printWipe] else [])
      ++ ((if 1 < v then [Ev.printRound n] else []) ++ [])).all is_print) = true := by
  split <;> split <;> simp [is_print]

/-- Claim C4: a file of size exactly zero is rejected by `wipe` before any
write with a distinct per-file error (`Err`, not a panic): no write, sync,
rename or removal event is emitted by `wipe_loop`; at the walk level the
failing file contributes exactly one count to the error counter and the run
continues with the remaining entries. -/
theorem c4_zero_size_file_rejected (round block_size : Nat) (zb : Bytes)
    (tvals : Nat → Bytes) (v num_rounds bs2 : Nat) (zero : Bool)
    (vals2 : Nat → Nat → Bytes) (idx : Nat) (hN : 1 ≤ num_rounds)
    (j d : Nat) (rflag : Bool) (rest : List Node) :
    wipe 0 round block_size zb tvals = WipeOut.err [] ∧
    (∃ evs : List Ev, wipe_loop v zero num_rounds 0 bs2 vals2 idx = WipeOut.err evs ∧
      evs.all is_print = true) ∧
    (walk1 rflag (Node.file j false) d).2 = 1 ∧
    run_roots rflag (Node.file j false :: rest)
      = (WEv.attempt j :: (run_roots rflag rest).1, 1 + (run_roots rflag rest).2) := by
  have hwipe0 : ∀ (r bs : Nat) (zb' : Bytes) (tv : Nat → Bytes),
      wipe 0 r bs zb' tv = WipeOut.err [] := by
    intro r bs zb' tv
    simp [wipe]
  refine ⟨hwipe0 round block_size zb tvals, ?_, ?_, ?_⟩
  · unfold wipe_loop
    rw [List.range_eq_range', List.range'_succ]
    cases zero with
    | true =>
      refine ⟨_, wipe_loop_go_first_err v true bs2 (zero_block_of bs2) vals2
        (choose_value idx) 0 _ _ (by decide) (hwipe0 0 bs2 _ _), is_print_prefix v 0⟩
    | false =>
      obtain ⟨M, rfl⟩ : ∃ M, num_rounds = M + 1 := ⟨num_rounds - 1, by omega⟩
      rw [wipe_loop_go]
      simp only [Nat.zero_add, beq_self_eq_true, Bool.not_false, Bool.and_self, if_true]
      rw [List.range'_succ]
      refine ⟨_, wipe_loop_go_first_err v false bs2 (zero_block_of bs2) vals2
        (choose_value idx) 1 _ _ (by decide) (hwipe0 1 bs2 _ _), is_print_prefix v 1⟩
  · simp [walk1, walk]
  · simp [run_roots, walk1, walk]

/-- Witness for C4: one round configured; the failing zero-size file is root
of a one-element remainder list. -/
theorem c4_zero_size_file_rejected_witness :
    wipe 0 1 4 (zero_block_of 4) (fun _ => [56, 61, 68]) = WipeOut.err [] ∧
    (∃ evs : List Ev, wipe_loop 2 false 1 0 4 (fun _ _ => [56, 61, 68]) 0 = WipeOut.err evs ∧
      evs.all is_print = true) ∧
    (walk1 false (Node.file 7 false) 0).2 = 1 ∧
    run_roots false (Node.file 7 false :: [Node.file 8 true])
      = (WEv.attempt 7 :: (run_roots false [Node.file 8 true]).1,
         1 + (run_roots false [Node.file 8 true]).2) :=
  c4_zero_size_file_rejected 1 4 (zero_block_of 4) (fun _ => [56, 61, 68]) 2 1 4 false
    (fun _ _ => [56, 61, 68]) 0 (by decide) 7 0 false [Node.file 8 true]

/-- Processing a directory listing is compositional: later siblings are
processed no matter how earlier ones fared, traces concatenate and error
counts add. -/
lemma walk_list_append (rflag : Bool) (es1 es2 : List Node) (d : Nat) :
    walk_list rflag (es1 ++ es2) d
      = ((walk_list rflag es1 d).1 ++ (walk_list rflag es2 d).1,
         (walk_list rflag es1 d).2.1 + (walk_list rflag es2 d).2.1,
         ((walk_list rflag es1 d).2.2 && (walk_list rflag es2 d).2.2)) := by
  induction es1 with
  | nil => simp [walk_list]
  | cons e rest ih =>
    simp [walk_list, ih, List.append_assoc, Nat.add_assoc, Bool.and_assoc]

/-- Root processing is compositional in the same way. -/
lemma run_roots_append (rflag : Bool) (r1 r2 : List Node) :
    run_roots rflag (r1 ++ r2)
      = ((run_roots rflag r1).1 ++ (run_roots rflag r2).1,
         (run_roots rflag r1).2 + (run_roots rflag r2).2) := by
  induction r1 with
  | nil => simp [run_roots]
  | cons n rest ih => simp [run_roots, ih, List.append_assoc, Nat.add_assoc]

/-- Claim C5: every per-entry error during the walk is caught at the nearest
recursion boundary (`walk1`), counted exactly once (the boundary adds 1 for
its own call's failure on top of the errors already counted inside), and
never aborts sibling entries or later roots (traces concatenate, counts add);
after all roots, the program succeeds iff the counter is zero, and otherwise
reports "<N> errors were during wiping" and exits nonzero. -/
theorem c5_error_aggregation (rflag : Bool) (roots extra : List Node)
    (es1 es2 : List Node) (d : Nat) (nd : Node) :
    ((main_run rflag roots).2.2 = Except.ok () ↔ (main_run rflag roots).2.1 = 0) ∧
    ((main_run rflag roots).2.2 = Except.ok () ∨
      (main_run rflag roots).2.2
        = Except.error (toString (main_run rflag roots).2.1 ++ " errors were during wiping")) ∧
    run_roots rflag (roots ++ extra)
      = ((run_roots rflag roots).1 ++ (run_roots rflag extra).1,
         (run_roots rflag roots).2 + (run_roots rflag extra).2) ∧
    (walk_list rflag (es1 ++ es2) d).1
      = (walk_list rflag es1 d).1 ++ (walk_list rflag es2 d).1 ∧
    (walk_list rflag (es1 ++ es2) d).2.1
      = (walk_list rflag es1 d).2.1 + (walk_list rflag es2 d).2.1 ∧
    (walk1 rflag nd d).2
      = (walk rflag nd d).errs + (if (walk rflag nd d).ok then 0 else 1) := by
  refine ⟨?_, ?_, run_roots_append rflag roots extra, ?_, ?_, rfl⟩
  · unfold main_run main_result
    by_cases h : (run_roots rflag roots).2 = 0 <;> simp [h]
  · unfold main_run main_result
    by_cases h : (run_roots rflag roots).2 = 0 <;> simp [h]
  · rw [walk_list_append]
  · rw [walk_list_append]

/-- Claim C7: a directory met at depth > 0 without the recursive flag makes
`walk` return success immediately — no event, no error count, nothing removed
— while depth-0 entries are always attempted: a depth-0 file is always
attempted whatever the flags, and a depth-0 directory is always listed (the
skip branch is never taken at depth 0). -/
theorem c7_nonrecursive_skip (jd d : Nat) (es : List Node) (hd : 0 < d)
    (j2 : Nat) (okv : Bool) (rflag : Bool) (d2 : Nat) (es2 : List Node) (j3 : Nat)
    (rflag2 : Bool) :
    walk false (Node.dir jd es) d = ⟨[], 0, true, false⟩ ∧
    WEv.attempt j2 ∈ (walk rflag (Node.file j2 okv) d2).trace ∧
    walk rflag2 (Node.dir j3 es2) 0
      = (if (walk_list rflag2 es2 1).2.2 then
          ⟨(walk_list rflag2 es2 1).1 ++ [WEv.removedDir j3],
            (walk_list rflag2 es2 1).2.1, true, true⟩
        else ⟨(walk_list rflag2 es2 1).1, (walk_list rflag2 es2 1).2.1, false, false⟩) := by
  refine ⟨?_, ?_, ?_⟩
  · rw [walk]
    simp [hd]
  · rw [walk]
    cases okv <;> simp
  · rw [walk]
    simp

/-- Witness for C7: depth 1, non-recursive, a directory with one file inside
is skipped untouched; a depth-0 file and a depth-0 directory are attempted. -/
theorem c7_nonrecursive_skip_witness :
    walk false (Node.dir 0 [Node.file 5 true]) 1 = ⟨[], 0, true, false⟩ ∧
    WEv.attempt 6 ∈ (walk true (Node.file 6 false) 0).trace ∧
    walk true (Node.dir 7 []) 0
      = (if (walk_list true [] 1).2.2 then
          ⟨(walk_list true [] 1).1 ++ [WEv.removedDir 7],
            (walk_list true [] 1).2.1, true, true⟩
        else ⟨(walk_list true [] 1).1, (walk_list true [] 1).2.1, false, false⟩) :=
  c7_nonrecursive_skip 0 1 [Node.file 5 true] (by decide) 6 false true 0 [] 7 true

/-- A member that is not removed keeps the directory non-empty. -/
lemma walk_list_removed_of_mem (rflag : Bool) (d : Nat) (e : Node) (es : List Node)
    (hmem : e ∈ es) (hrem : (walk rflag e d).removed = false) :
    (walk_list rflag es d).2.2 = false := by
  induction es with
  | nil => cases hmem
  | cons e2 rest ih =>
    rw [walk_list]
    rw [List.mem_cons] at hmem
    rcases hmem with rfl | hmem
    · simp [hrem]
    · simp [ih hmem]

/-- Claim C10: in non-recursive mode a directory root containing at least one
subdirectory always ends with a failed `remove_dir` (the skipped subdirectory
is still there), so the root's `walk` fails, the boundary counts one more
error, and the run exits nonzero — even when every regular file among the
entries was wiped successfully. -/
theorem c10_nonrecursive_subdir_error (j jd : Nat) (es es2 : List Node)
    (hmem : Node.dir jd es2 ∈ es)
    (hfiles : ∀ (k : Nat) (b : Bool), Node.file k b ∈ es → b = true) :
    (walk false (Node.dir j es) 0).ok = false ∧
    (walk1 false (Node.dir j es) 0).2 = (walk false (Node.dir j es) 0).errs + 1 ∧
    1 ≤ (main_run false [Node.dir j es]).2.1 ∧
    (main_run false [Node.dir j es]).2.2
      = Except.error (toString (main_run false [Node.dir j es]).2.1
          ++ " errors were during wiping") := by
  have hsub : (walk false (Node.dir jd es2) 1).removed = false := by
    rw [walk]
    simp
  have hlist : (walk_list false es 1).2.2 = false :=
    walk_list_removed_of_mem false 1 _ es hmem hsub
  have hok : (walk false (Node.dir j es) 0).ok = false := by
    rw [walk]
    simp [hlist]
  have h12 : (walk1 false (Node.dir j es) 0).2 = (walk false (Node.dir j es) 0).errs + 1 := by
    unfold walk1
    simp [hok]
  have hrr : (run_roots false [Node.dir j es]).2 = (walk1 false (Node.dir j es) 0).2 := by
    simp [run_roots]
  have hpos : 1 ≤ (run_roots false [Node.dir j es]).2 := by
    rw [hrr, h12]
    omega
  refine ⟨hok, h12, hpos, ?_⟩
  show main_result (run_roots false [Node.dir j es]).2
    = Except.error (toString (run_roots false [Node.dir j es]).2 ++ " errors were during wiping")
  unfold main_result
  rw [if_pos (by omega)]

/-- Witness for C10: the root directory 0 contains only the subdirectory 1. -/
theorem c10_nonrecursive_subdir_error_witness :
    (walk false (Node.dir 0 [Node.dir 1 []]) 0).ok = false ∧
    (walk1 false (Node.dir 0 [Node.dir 1 []]) 0).2
      = (walk false (Node.dir 0 [Node.dir 1 []]) 0).errs + 1 ∧
    1 ≤ (main_run false [Node.dir 0 [Node.dir 1 []]]).2.1 ∧
    (main_run false [Node.dir 0 [Node.dir 1 []]]).2.2
      = Except.error (toString (main_run false [Node.dir 0 [Node.dir 1 []]]).2.1
          ++ " errors were during wiping") :=
  c10_nonrecursive_subdir_error 0 1 [Node.dir 1 []] []
    (List.mem_singleton.mpr rfl) (by intro k b h; simp at h)

end Viper
